import Mathlib

/-!
Verification development for the SysAdminRAG repository.

The definitions below are a shallow embedding of `RAG/chunking.py`
(`SmartChunker`) and `RAG/rag_system.py` (`SysAdminRAG`): pure Python code
becomes Lean functions, the regex-based splitters are implemented
character-by-character following the exact leftmost/greedy semantics of the
Python `re` patterns, exceptions become `Except`, and the external
collaborators (ColBERT index provider, Ollama completion provider, the
LangChain compressor, the filesystem) become explicit environment records of
functions, since their code is outside the repository.
-/

namespace SysAdminRAG

/-! ## Character-level helpers for the Python string/regex operations -/

/-- Python whitespace (`\s`, `str.strip()`, `str.split()`) restricted to the
ASCII range, which is the only range the repository's documents exercise. -/
def isPySpace (c : Char) : Bool :=
  c = ' ' || c = '\t' || c = '\n' || c = '\r' || c = '\x0b' || c = '\x0c'

/-- Uppercase ASCII letter, the `[A-Z]` class of the sentence regex. -/
def isUpperAZ (c : Char) : Bool :=
  'A' ≤ c && c ≤ 'Z'

/-- Sentence-final punctuation, the `[.!?]` class of the sentence regex. -/
def isSentEnd (c : Char) : Bool :=
  c = '.' || c = '!' || c = '?'

/-- `str.strip()`: drop leading and trailing whitespace. -/
def pyStrip (s : String) : String :=
  String.mk (((s.toList.dropWhile isPySpace).reverse.dropWhile isPySpace).reverse)

/-- Position of the last newline inside the maximal whitespace run starting at
the head of `cs`, if any.  This is the amount of backtracking the greedy
`\s*` of `\n\s*\n` performs: the match extends to the last `\n` inside the
contiguous whitespace following the opening `\n`. -/
def lastNlInRun (cs : List Char) : Option Nat :=
  let run := cs.takeWhile isPySpace
  let rec lastNl : List Char → Option Nat
    | [] => none
    | c :: rest =>
      match lastNl rest with
      | some p => some (p + 1)
      | none => if c = '\n' then some 0 else none
  lastNl run

/-- Scanner for `re.split(r'\n\s*\n', text)`.  At each position, a match
starts on a `'\n'` whose following whitespace run contains another `'\n'`;
the separator extends to the last such `'\n'` (greedy `\s*` with
backtracking).  `fuel` bounds the recursion; every step consumes at least one
character, so `cs.length` fuel suffices. -/
def paraSplitGo : Nat → List Char → List Char → List (List Char)
  | 0, cur, _ => [cur]
  | _ + 1, cur, [] => [cur]
  | fuel + 1, cur, c :: rest =>
    if c = '\n' then
      match lastNlInRun rest with
      | some p => cur :: paraSplitGo fuel [] (rest.drop (p + 1))
      | none => paraSplitGo fuel (cur ++ [c]) rest
    else
      paraSplitGo fuel (cur ++ [c]) rest

/-- `_split_into_paragraphs`: regex split on blank lines, then strip each
piece and drop the empty ones. -/
def split_into_paragraphs (text : String) : List String :=
  let cs := text.toList
  let pieces := (paraSplitGo (cs.length + 1) [] cs).map (fun p => pyStrip (String.mk p))
  pieces.filter (fun p => p ≠ "")

/-- One step of the sentence-boundary scan: a separator of
`(?<=[.!?])\s+(?=[A-Z])` matches at a position whose previous character is
sentence-final punctuation and which starts a whitespace run whose first
following character is an uppercase letter; the greedy `\s+` consumes the
whole run (shorter alternatives leave whitespace in the lookahead, which can
never be `[A-Z]`, so no backtracking is observable). -/
def sentSplitGo : Nat → Char → List Char → List Char → List (List Char)
  | 0, _, cur, _ => [cur]
  | _ + 1, _, cur, [] => [cur]
  | fuel + 1, prev, cur, c :: rest =>
    if isSentEnd prev && isPySpace c then
      let run := c :: rest.takeWhile isPySpace
      let after := rest.drop (run.length - 1)
      match after with
      | d :: _ =>
        if isUpperAZ d then
          cur :: sentSplitGo fuel c [] after
        else
          sentSplitGo fuel c (cur ++ [c]) rest
      | [] => sentSplitGo fuel c (cur ++ [c]) rest
    else
      sentSplitGo fuel c (cur ++ [c]) rest

/-- `_split_into_sentences`: regex split on sentence boundaries, then strip
each piece and drop the empty ones. -/
def split_into_sentences (text : String) : List String :=
  let cs := text.toList
  let pieces := (sentSplitGo (cs.length + 1) ' ' [] cs).map (fun p => pyStrip (String.mk p))
  pieces.filter (fun p => p ≠ "")

/-- `str.split()` with no argument: split on whitespace runs, dropping empty
pieces. -/
def splitWhitespace (s : String) : List String :=
  let rec go : List Char → List Char → List String
    | cur, [] => if cur = [] then [] else [String.mk cur.reverse]
    | cur, c :: rest =>
      if isPySpace c then
        if cur = [] then go [] rest
        else String.mk cur.reverse :: go [] rest
      else go (c :: cur) rest
  go [] s.toList

/-- `' '.join(parts)`. -/
def joinSpace (parts : List String) : String :=
  String.intercalate " " parts

/-! ## The chunker (`RAG/chunking.py`) -/

/-- `SmartChunker.__init__` configuration, with the library defaults. -/
structure SmartChunker where
  chunk_size : Nat := 900
  chunk_overlap : Nat := 50
  min_chunk_size : Nat := 150
  respect_sentences : Bool := true
  respect_paragraphs : Bool := true
deriving DecidableEq, Repr

/-- `_estimate_tokens`: 1 token ≈ 4 characters, by integer division. -/
def estimate_tokens (text : String) : Nat :=
  text.length / 4

/-- Document record handed to `chunk_document`.  Python metadata values are
modelled as strings, which the claims never inspect. -/
structure Document where
  id : String
  source_url : String := ""
  title : String := ""
  text : String := ""
  meta : List (String × String) := []
deriving DecidableEq, Repr

/-- The `Chunk` dataclass. -/
structure Chunk where
  text : String
  chunk_id : String
  source_id : String
  source_url : String
  title : String
  chunk_index : Nat
  metadata : List (String × String)
deriving DecidableEq, Repr

/-- Sum of the per-unit size estimates, the
`sum(self._estimate_tokens(s) for s in current_chunk)` recomputation. -/
def sumSizes (usize : String → Nat) (l : List String) : Nat :=
  (l.map usize).sum

/-- `l[-n:]` for `n > 0`: the last `min n l.length` elements. -/
def takeLast (n : Nat) (l : List String) : List String :=
  l.drop (l.length - n)

/-- Accumulator of the greedy packing loop in `_split_paragraph`: the flushed
chunks (kept as unit lists; the Python joins with spaces at flush time, which
we do once at the end), the current buffer and its accumulated size. -/
structure SplitState where
  chunks : List (List String)
  cur : List String
  curSize : Nat
deriving Repr

/-- Loop body of `_split_paragraph`, shared by the sentence branch
(`slice = 2`, `usize = estimate_tokens`) and the word branch
(`slice = chunk_overlap`, `usize` counts a trailing space), exactly as the
two Python loops instantiate it. -/
def splitStep (chunkSize overlap slice : Nat) (usize : String → Nat)
    (st : SplitState) (u : String) : SplitState :=
  let usz := usize u
  if chunkSize < st.curSize + usz ∧ st.cur ≠ [] then
    if 0 < overlap then
      let seed := if slice ≤ st.cur.length then takeLast slice st.cur else st.cur
      { chunks := st.chunks ++ [st.cur]
        cur := seed ++ [u]
        curSize := sumSizes usize (seed ++ [u]) }
    else
      { chunks := st.chunks ++ [st.cur], cur := [u], curSize := usz }
  else
    { chunks := st.chunks, cur := st.cur ++ [u], curSize := st.curSize + usz }

/-- The greedy packing loop of `_split_paragraph` over a list of units,
including the final flush of a non-empty buffer. -/
def splitUnits (chunkSize overlap slice : Nat) (usize : String → Nat)
    (units : List String) : List (List String) :=
  let st := units.foldl (splitStep chunkSize overlap slice usize) ⟨[], [], 0⟩
  if st.cur ≠ [] then st.chunks ++ [st.cur] else st.chunks

/-- Word size in the word branch: `self._estimate_tokens(word + ' ')`. -/
def wordSize (w : String) : Nat :=
  estimate_tokens (w ++ " ")

/-- `_split_paragraph`: a paragraph within budget is one chunk; otherwise it
is packed from sentences (or whitespace-delimited words) with overlap. -/
def split_paragraph (cfg : SmartChunker) (paragraph : String) : List String :=
  if estimate_tokens paragraph ≤ cfg.chunk_size then [paragraph]
  else if cfg.respect_sentences then
    (splitUnits cfg.chunk_size cfg.chunk_overlap 2 estimate_tokens
      (split_into_sentences paragraph)).map joinSpace
  else
    (splitUnits cfg.chunk_size cfg.chunk_overlap cfg.chunk_overlap wordSize
      (splitWhitespace paragraph)).map joinSpace

/-- Chunk record built in the paragraph branch of `chunk_document`;
`accLen` is `len(chunks)` at append time, which becomes `chunk_index`. -/
def mkParaChunk (doc : Document) (paraIdx total chunkIdx accLen : Nat)
    (text : String) : Chunk :=
  { text := text
    chunk_id := doc.id ++ "_chunk_" ++ toString paraIdx ++ "_" ++ toString chunkIdx
    source_id := doc.id
    source_url := doc.source_url
    title := doc.title
    chunk_index := accLen
    metadata := doc.meta ++
      [("paragraph_index", toString paraIdx),
       ("chunk_in_paragraph", toString chunkIdx),
       ("total_chunks", toString total)] }

/-- Chunk record built in the non-paragraph branch of `chunk_document`;
`chunk_index` is the position in the pre-filter split output. -/
def mkFlatChunk (doc : Document) (chunkIdx : Nat) (text : String) : Chunk :=
  { text := text
    chunk_id := doc.id ++ "_chunk_" ++ toString chunkIdx
    source_id := doc.id
    source_url := doc.source_url
    title := doc.title
    chunk_index := chunkIdx
    metadata := doc.meta }

/-- Inner loop of the paragraph branch: enumerate a paragraph's chunks,
skip the ones under `min_chunk_size`, append the rest with
`chunk_index = len(chunks)`. -/
def paraStep (cfg : SmartChunker) (doc : Document)
    (acc : List Chunk) (pi : Nat × String) : List Chunk :=
  let paraChunks := split_paragraph cfg pi.2
  paraChunks.enum.foldl
    (fun acc2 ci =>
      if estimate_tokens ci.2 < cfg.min_chunk_size then acc2
      else acc2 ++ [mkParaChunk doc pi.1 paraChunks.length ci.1 acc2.length ci.2])
    acc

/-- Loop body of the non-paragraph branch of `chunk_document`. -/
def flatStep (cfg : SmartChunker) (doc : Document)
    (acc : List Chunk) (ci : Nat × String) : List Chunk :=
  if estimate_tokens ci.2 < cfg.min_chunk_size then acc
  else acc ++ [mkFlatChunk doc ci.1 ci.2]

/-- `chunk_document`: empty text gives no chunks; otherwise either the
paragraph pipeline or the flat pipeline runs, each dropping candidates under
`min_chunk_size`. -/
def chunk_document (cfg : SmartChunker) (doc : Document) : List Chunk :=
  if doc.text = "" then []
  else if cfg.respect_paragraphs then
    (split_into_paragraphs doc.text).enum.foldl (paraStep cfg doc) []
  else
    (split_paragraph cfg doc.text).enum.foldl (flatStep cfg doc) []

/-! ## The RAG system (`RAG/rag_system.py`)

The ColBERT index provider, the filesystem, the LangChain compressor and the
Ollama completion provider are external collaborators; they are modelled as
environment records of functions.  A shard's provider handle together with
the per-shard result formatting of `_search_single_index` is a function from
`(query, k)` to formatted hits; exceptions are `Except`. -/

/-- A formatted per-shard search hit, as produced by `_search_single_index`.
Scores are modelled as rationals: the claims only use their order. -/
structure SearchHit where
  chunk_id : String
  text : String
  score : Int
  title : String
  source_url : String
  index_path : String
deriving DecidableEq, Repr

/-- A loaded shard: resolved index path plus its provider handle, modelled
as the composite query function of `_search_single_index`. -/
structure Shard where
  path : String
  query : String → Nat → List SearchHit

/-- The mutable fields of `SysAdminRAG` that the claims touch. -/
structure RAGState where
  index_paths : List String
  index_loaded : Bool
  use_compression : Bool
  shard_models : List Shard

/-- Failures `load_index` can raise: the `FileNotFoundError` of the
zero-resolved-indexes check, or an uncaught exception escaping
`RAGPretrainedModel.from_index` for some resolved path. -/
inductive LoadError where
  | noIndexFound
  | providerError (path msg : String)
deriving DecidableEq, Repr

/-- `search` raises `RuntimeError` when no index has been loaded. -/
inductive SearchError where
  | notLoaded
deriving DecidableEq, Repr

/-- External world of `load_index`: `_get_index_path` resolution,
provider-handle construction (which may throw), and whether the warm-up
query `model.search(" ", k=1)` succeeds for a constructed handle. -/
structure LoadEnv where
  resolve : String → Option String
  fromIndex : String → Except String (String → Nat → List SearchHit)
  warmupOk : String → Bool

/-- The logged warning of the warm-up `try/except` in `load_index`. -/
def warmupWarning (path : String) : String :=
  "Warning: failed to preload index " ++ path

/-- The `for base in self.index_paths` loop of `load_index`: resolve each
base path, record it as existing, construct the provider handle (an
exception here is NOT inside any `try` and aborts the whole load), run the
warm-up inside `try/except` (a failure only logs a warning), and append the
shard unconditionally after the `try` block. -/
def loadLoop (env : LoadEnv) :
    List String → List (String × String) → List Shard → List String →
    Except LoadError (List (String × String) × List Shard × List String)
  | [], existing, shards, log => .ok (existing, shards, log)
  | base :: rest, existing, shards, log =>
    match env.resolve base with
    | none => loadLoop env rest existing shards log
    | some path =>
      let existing' := existing ++ [(base, path)]
      match env.fromIndex path with
      | .error e => .error (.providerError path e)
      | .ok q =>
        let log' := if env.warmupOk path then log else log ++ [warmupWarning path]
        loadLoop env rest existing' (shards ++ [{ path := path, query := q }]) log'

/-- `load_index` (without auto-discovery): run the loading loop starting
from the current shard list, then fail with `FileNotFoundError` exactly when
no base path resolved; otherwise mark the index loaded.  The second
component of a successful result is the list of logged warnings. -/
def load_index (env : LoadEnv) (st : RAGState) :
    Except LoadError (RAGState × List String) :=
  match loadLoop env st.index_paths [] st.shard_models [] with
  | .error e => .error e
  | .ok (existing, shards, log) =>
    if existing = [] then .error .noIndexFound
    else .ok ({ st with shard_models := shards, index_loaded := true }, log)

/-- Stable-in-spirit insertion into a list sorted by non-increasing score:
an element goes after every element with a score at least as large. -/
def insertDesc (h : SearchHit) : List SearchHit → List SearchHit
  | [] => [h]
  | x :: xs => if h.score ≤ x.score then x :: insertDesc h xs else h :: x :: xs

/-- `all_results.sort(key=lambda r: score, reverse=True)`. -/
def sortDesc (l : List SearchHit) : List SearchHit :=
  l.foldr insertDesc []

/-- `search`: raise if not loaded; query every loaded shard with the fixed
per-shard fan-out `k=2`; merge, sort by descending score, truncate to `k`. -/
def search (st : RAGState) (query : String) (k : Nat) :
    Except SearchError (List SearchHit) :=
  if st.index_loaded = false then .error .notLoaded
  else
    let all := (st.shard_models.map (fun s => s.query query 2)).flatten
    if all = [] then .ok []
    else .ok ((sortDesc all).take k)

/-- Observable calls `ask` makes, in order: searches (with their arguments),
compressor invocations, and completion-provider (Ollama) invocations. -/
inductive Event where
  | searchCall (query : String) (k : Nat)
  | compressCall
  | ollamaCall
deriving DecidableEq, Repr

/-- External world of `ask`: the compressor (which may throw) and the
completion provider, taking the question and the assembled context. -/
structure AskEnv where
  compress : List SearchHit → String → Except String (List SearchHit)
  ollama : String → String → String

/-- The answer `ask` returns when the search comes back empty. -/
def noInfoAnswer : String :=
  "Sorry, no relevant information found to answer your question."

/-- A source citation `{title, url, relevance_score}`. -/
structure Source where
  title : String
  url : String
  relevance_score : Int
deriving DecidableEq, Repr

/-- The dictionary `ask` returns. -/
structure AskResult where
  answer : String
  sources : List Source
  search_results : List SearchHit

/-- Context assembly of `ask`: one labelled section per hit, 1-based,
joined by blank lines. -/
def contextOf (results : List SearchHit) : String :=
  String.intercalate "\n\n"
    (results.enum.map
      (fun ir => "[Document " ++ toString (ir.1 + 1) ++ " - " ++ ir.2.title ++ "]\n" ++ ir.2.text))

/-- Tail of `ask` shared by all non-empty-results paths: build the context,
call the completion provider, and package answer, sources and results. -/
def finishAsk (env : AskEnv) (question : String) (results : List SearchHit)
    (events : List Event) : Except SearchError AskResult × List Event :=
  let answer := env.ollama question (contextOf results)
  (.ok { answer := answer
         sources := results.map (fun r =>
           { title := r.title, url := r.source_url, relevance_score := r.score })
         search_results := results },
   events ++ [.ollamaCall])

/-- `ask`: search, short-circuit on an empty result, optionally compress
(recovering the originals by re-running the search when the compressor
returns nothing from a non-empty input, and on a compressor exception),
then generate.  The trace records every external call in order. -/
def ask (env : AskEnv) (st : RAGState) (question : String) (k : Nat) :
    Except SearchError AskResult × List Event :=
  match search st question k with
  | .error e => (.error e, [.searchCall question k])
  | .ok searchResults =>
    if searchResults = [] then
      (.ok { answer := noInfoAnswer, sources := [], search_results := [] },
       [.searchCall question k])
    else if st.use_compression then
      match env.compress searchResults question with
      | .ok compressed =>
        if compressed.length = 0 ∧ 0 < searchResults.length then
          match search st question k with
          | .ok again =>
            finishAsk env question again
              [.searchCall question k, .compressCall, .searchCall question k]
          | .error e =>
            (.error e, [.searchCall question k, .compressCall, .searchCall question k])
        else
          finishAsk env question compressed [.searchCall question k, .compressCall]
      | .error _ =>
        finishAsk env question searchResults [.searchCall question k, .compressCall]
    else
      finishAsk env question searchResults [.searchCall question k]

/-! ## Generic helper lemmas -/

/-- A predicate preserved by every step of a `foldl` holds of its result. -/
theorem foldl_inv {α β : Type} (P : β → Prop) (f : β → α → β) :
    ∀ (l : List α) (acc : β), (∀ b a, a ∈ l → P b → P (f b a)) → P acc →
      P (l.foldl f acc) := by
  intro l
  induction l with
  | nil => intro acc _ h; exact h
  | cons x xs ih =>
    intro acc hstep h
    exact ih (f acc x)
      (fun b a ha hb => hstep b a (List.mem_cons_of_mem _ ha) hb)
      (hstep acc x (List.mem_cons_self _ _) h)

/-- The value component of an `enum` entry is an element of the list. -/
theorem snd_mem_of_mem_enum {α : Type} {l : List α} {it : Nat × α}
    (h : it ∈ l.enum) : it.2 ∈ l := by
  have := List.mem_map_of_mem Prod.snd h
  rwa [List.enum_map_snd] at this

/-! ## Sorting lemmas for the merge step -/

/-- The comparison `search` sorts by: non-increasing score. -/
def scoreGE (a b : SearchHit) : Prop := b.score ≤ a.score

theorem mem_insertDesc {x h : SearchHit} :
    ∀ {l : List SearchHit}, x ∈ insertDesc h l ↔ x = h ∨ x ∈ l := by
  intro l
  induction l with
  | nil => simp [insertDesc]
  | cons y ys ih =>
    by_cases hc : h.score ≤ y.score
    · rw [insertDesc, if_pos hc]
      simp only [List.mem_cons, ih]
      tauto
    · rw [insertDesc, if_neg hc]
      simp only [List.mem_cons]

theorem sorted_insertDesc (h : SearchHit) :
    ∀ {l : List SearchHit}, l.Pairwise scoreGE → (insertDesc h l).Pairwise scoreGE := by
  intro l
  induction l with
  | nil => intro; simp [insertDesc, List.Pairwise]
  | cons y ys ih =>
    intro hp
    rw [List.pairwise_cons] at hp
    by_cases hc : h.score ≤ y.score
    · rw [insertDesc, if_pos hc, List.pairwise_cons]
      refine ⟨?_, ih hp.2⟩
      intro z hz
      rcases mem_insertDesc.mp hz with rfl | hz'
      · exact hc
      · exact hp.1 z hz'
    · rw [insertDesc, if_neg hc, List.pairwise_cons]
      refine ⟨?_, List.pairwise_cons.mpr hp⟩
      intro z hz
      rcases List.mem_cons.mp hz with rfl | hz'
      · exact le_of_lt (lt_of_not_le hc)
      · exact le_trans (hp.1 z hz') (le_of_lt (lt_of_not_le hc))

theorem sorted_sortDesc (l : List SearchHit) : (sortDesc l).Pairwise scoreGE := by
  induction l with
  | nil => simp [sortDesc, List.Pairwise]
  | cons x xs ih => exact sorted_insertDesc x ih

theorem mem_sortDesc {x : SearchHit} :
    ∀ {l : List SearchHit}, x ∈ sortDesc l ↔ x ∈ l := by
  intro l
  induction l with
  | nil => simp [sortDesc]
  | cons y ys ih =>
    show x ∈ insertDesc y (sortDesc ys) ↔ _
    rw [mem_insertDesc, List.mem_cons, ih]

/-! ## Claim C2 -/

/-- C2: with shards loaded, `search(q, k)` draws every returned hit from some
loaded shard's fixed fan-out-2 query, returns at most `k` hits, and the
returned list is sorted by non-increasing score. -/
theorem search_merge_spec (st : RAGState) (q : String) (k : Nat)
    (hld : st.index_loaded = true) :
    ∃ l, search st q k = .ok l ∧ l.length ≤ k ∧ l.Pairwise scoreGE ∧
      ∀ h ∈ l, ∃ s ∈ st.shard_models, h ∈ s.query q 2 := by
  rw [search, hld]
  simp only [Bool.true_eq_false, if_false]
  by_cases hall : (st.shard_models.map (fun s => s.query q 2)).flatten = []
  · rw [if_pos hall]
    exact ⟨[], rfl, by simp, by simp [List.Pairwise], by simp⟩
  · rw [if_neg hall]
    refine ⟨_, rfl, ?_, ?_, ?_⟩
    · exact (List.length_take _ _).le.trans (min_le_left _ _)
    · exact (sorted_sortDesc _).sublist (List.take_sublist _ _)
    · intro h hmem
      have h1 : h ∈ sortDesc ((st.shard_models.map (fun s => s.query q 2)).flatten) :=
        List.take_subset _ _ hmem
      have h2 := mem_sortDesc.mp h1
      rcases List.mem_flatten.mp h2 with ⟨lst, hlst, hin⟩
      rcases List.mem_map.mp hlst with ⟨s, hs, rfl⟩
      exact ⟨s, hs, hin⟩

/-- C2 witness: a loaded two-shard state at a concrete query and `k = 3`. -/
theorem search_merge_spec_witness :
    ∃ l, search
        { index_paths := ["a", "b"], index_loaded := true, use_compression := false,
          shard_models :=
            [{ path := "pa",
               query := fun _ _ => [{ chunk_id := "c1", text := "t1", score := 3,
                                      title := "", source_url := "", index_path := "pa" }] },
             { path := "pb",
               query := fun _ _ => [{ chunk_id := "c2", text := "t2", score := 7,
                                      title := "", source_url := "", index_path := "pb" }] }] }
        "how to restart sshd" 3 = .ok l ∧
      l.length ≤ 3 ∧ l.Pairwise scoreGE ∧
      ∀ h ∈ l, ∃ s ∈
        [{ path := "pa",
           query := fun _ _ => [{ chunk_id := "c1", text := "t1", score := 3,
                                  title := "", source_url := "", index_path := "pa" }] },
         { path := "pb",
           query := fun _ _ => [{ chunk_id := "c2", text := "t2", score := 7,
                                  title := "", source_url := "", index_path := "pb" }] }],
        h ∈ Shard.query s "how to restart sshd" 2 :=
  search_merge_spec _ "how to restart sshd" 3 rfl

/-! ## Lemmas about the loading loop -/

theorem loadLoop_nil (env : LoadEnv) (ex : List (String × String))
    (sh : List Shard) (lg : List String) :
    loadLoop env [] ex sh lg = .ok (ex, sh, lg) := rfl

theorem loadLoop_cons_none (env : LoadEnv) {base : String} (rest : List String)
    (ex : List (String × String)) (sh : List Shard) (lg : List String)
    (hres : env.resolve base = none) :
    loadLoop env (base :: rest) ex sh lg = loadLoop env rest ex sh lg := by
  rw [loadLoop, hres]

theorem loadLoop_cons_error (env : LoadEnv) {base path e : String}
    (rest : List String) (ex : List (String × String)) (sh : List Shard)
    (lg : List String) (hres : env.resolve base = some path)
    (hfi : env.fromIndex path = .error e) :
    loadLoop env (base :: rest) ex sh lg = .error (.providerError path e) := by
  simp only [loadLoop, hres, hfi]

theorem loadLoop_cons_ok (env : LoadEnv) {base path : String}
    {q : String → Nat → List SearchHit} (rest : List String)
    (ex : List (String × String)) (sh : List Shard) (lg : List String)
    (hres : env.resolve base = some path) (hfi : env.fromIndex path = .ok q) :
    loadLoop env (base :: rest) ex sh lg =
      loadLoop env rest (ex ++ [(base, path)]) (sh ++ [{ path := path, query := q }])
        (if env.warmupOk path then lg else lg ++ [warmupWarning path]) := by
  simp only [loadLoop, hres, hfi]

/-- The loading loop never raises the zero-indexes error itself; that check
happens only after the loop. -/
theorem loadLoop_ne_noIndexFound (env : LoadEnv) :
    ∀ (paths : List String) ex sh lg,
      loadLoop env paths ex sh lg ≠ .error .noIndexFound := by
  intro paths
  induction paths with
  | nil => intro ex sh lg h; exact Except.noConfusion h
  | cons base rest ih =>
    intro ex sh lg h
    cases hres : env.resolve base with
    | none =>
      rw [loadLoop_cons_none env rest ex sh lg hres] at h
      exact ih _ _ _ h
    | some path =>
      cases hfi : env.fromIndex path with
      | error e =>
        rw [loadLoop_cons_error env rest ex sh lg hres hfi] at h
        simp only [Except.error.injEq] at h
        exact LoadError.noConfusion h
      | ok q =>
        rw [loadLoop_cons_ok env rest ex sh lg hres hfi] at h
        exact ih _ _ _ h

/-- On success, the loop's `existing` list extends its input, and the
extension is empty exactly when no path resolved. -/
theorem loadLoop_existing (env : LoadEnv) :
    ∀ (paths : List String) ex sh lg ex' sh' lg',
      loadLoop env paths ex sh lg = .ok (ex', sh', lg') →
      ∃ suffix, ex' = ex ++ suffix ∧
        (suffix = [] ↔ ∀ b ∈ paths, env.resolve b = none) := by
  intro paths
  induction paths with
  | nil =>
    intro ex sh lg ex' sh' lg' h
    rw [loadLoop_nil] at h
    simp only [Except.ok.injEq, Prod.mk.injEq] at h
    exact ⟨[], by simp [h.1.symm], by simp⟩
  | cons base rest ih =>
    intro ex sh lg ex' sh' lg' h
    cases hres : env.resolve base with
    | none =>
      rw [loadLoop_cons_none env rest ex sh lg hres] at h
      rcases ih _ _ _ _ _ _ h with ⟨suffix, heq, hiff⟩
      refine ⟨suffix, heq, ?_⟩
      rw [hiff]
      constructor
      · intro hall b hb
        rcases List.mem_cons.mp hb with rfl | hb'
        · exact hres
        · exact hall b hb'
      · intro hall b hb
        exact hall b (List.mem_cons_of_mem _ hb)
    | some path =>
      cases hfi : env.fromIndex path with
      | error e =>
        rw [loadLoop_cons_error env rest ex sh lg hres hfi] at h
        exact Except.noConfusion h
      | ok q =>
        rw [loadLoop_cons_ok env rest ex sh lg hres hfi] at h
        rcases ih _ _ _ _ _ _ h with ⟨suffix, heq, _⟩
        refine ⟨(base, path) :: suffix, by simpa using heq, ?_⟩
        constructor
        · intro hc; exact List.noConfusion hc
        · intro hall
          have := hall base (List.mem_cons_self _ _)
          rw [hres] at this
          exact Option.noConfusion this

/-- If every path resolves to nothing, the loop is a no-op. -/
theorem loadLoop_all_none (env : LoadEnv) :
    ∀ (paths : List String) ex sh lg,
      (∀ b ∈ paths, env.resolve b = none) →
      loadLoop env paths ex sh lg = .ok (ex, sh, lg) := by
  intro paths
  induction paths with
  | nil => intro ex sh lg _; rfl
  | cons base rest ih =>
    intro ex sh lg hall
    rw [loadLoop_cons_none env rest ex sh lg (hall base (List.mem_cons_self _ _))]
    exact ih _ _ _ (fun b hb => hall b (List.mem_cons_of_mem _ hb))

/-- On success, shards and warnings only accumulate. -/
theorem loadLoop_mono (env : LoadEnv) :
    ∀ (paths : List String) ex sh lg ex' sh' lg',
      loadLoop env paths ex sh lg = .ok (ex', sh', lg') →
      (∀ s ∈ sh, s ∈ sh') ∧ (∀ w ∈ lg, w ∈ lg') := by
  intro paths
  induction paths with
  | nil =>
    intro ex sh lg ex' sh' lg' h
    rw [loadLoop_nil] at h
    simp only [Except.ok.injEq, Prod.mk.injEq] at h
    rw [← h.2.1, ← h.2.2]
    exact ⟨fun s hs => hs, fun w hw => hw⟩
  | cons base rest ih =>
    intro ex sh lg ex' sh' lg' h
    cases hres : env.resolve base with
    | none =>
      rw [loadLoop_cons_none env rest ex sh lg hres] at h
      exact ih _ _ _ _ _ _ h
    | some path =>
      cases hfi : env.fromIndex path with
      | error e =>
        rw [loadLoop_cons_error env rest ex sh lg hres hfi] at h
        exact Except.noConfusion h
      | ok q =>
        rw [loadLoop_cons_ok env rest ex sh lg hres hfi] at h
        rcases ih _ _ _ _ _ _ h with ⟨hsh, hlg⟩
        refine ⟨fun s hs => hsh s (List.mem_append_left _ hs), fun w hw => ?_⟩
        by_cases hwu : env.warmupOk path = true
        · rw [if_pos hwu] at hlg
          exact hlg w hw
        · rw [if_neg hwu] at hlg
          exact hlg w (List.mem_append_left _ hw)

/-- On success, every shard in the result either was already present or has a
successfully constructed provider handle for a path some base resolved to. -/
theorem loadLoop_shards (env : LoadEnv) :
    ∀ (paths : List String) ex sh lg ex' sh' lg',
      loadLoop env paths ex sh lg = .ok (ex', sh', lg') →
      ∀ s ∈ sh', s ∈ sh ∨
        (env.fromIndex s.path = .ok s.query ∧
         ∃ b ∈ paths, env.resolve b = some s.path) := by
  intro paths
  induction paths with
  | nil =>
    intro ex sh lg ex' sh' lg' h s hs
    rw [loadLoop_nil] at h
    simp only [Except.ok.injEq, Prod.mk.injEq] at h
    rw [← h.2.1] at hs
    exact Or.inl hs
  | cons base rest ih =>
    intro ex sh lg ex' sh' lg' h s hs
    cases hres : env.resolve base with
    | none =>
      rw [loadLoop_cons_none env rest ex sh lg hres] at h
      rcases ih _ _ _ _ _ _ h s hs with hin | ⟨hq, b, hb, hr⟩
      · exact Or.inl hin
      · exact Or.inr ⟨hq, b, List.mem_cons_of_mem _ hb, hr⟩
    | some path =>
      cases hfi : env.fromIndex path with
      | error e =>
        rw [loadLoop_cons_error env rest ex sh lg hres hfi] at h
        exact Except.noConfusion h
      | ok q =>
        rw [loadLoop_cons_ok env rest ex sh lg hres hfi] at h
        rcases ih _ _ _ _ _ _ h s hs with hin | ⟨hq, b, hb, hr⟩
        · rcases List.mem_append.mp hin with hin' | hone
          · exact Or.inl hin'
          · rcases List.mem_singleton.mp hone with rfl
            exact Or.inr ⟨hfi, base, List.mem_cons_self _ _, hres⟩
        · exact Or.inr ⟨hq, b, List.mem_cons_of_mem _ hb, hr⟩

/-- On success, every base path that resolves contributes a shard, and a
failed warm-up for it leaves a logged warning. -/
theorem loadLoop_resolved (env : LoadEnv) :
    ∀ (paths : List String) ex sh lg ex' sh' lg',
      loadLoop env paths ex sh lg = .ok (ex', sh', lg') →
      ∀ b ∈ paths, ∀ p, env.resolve b = some p →
        (∃ s ∈ sh', s.path = p) ∧
        (env.warmupOk p = false → warmupWarning p ∈ lg') := by
  intro paths
  induction paths with
  | nil =>
    intro ex sh lg ex' sh' lg' _ b hb
    exact absurd hb (List.not_mem_nil b)
  | cons base rest ih =>
    intro ex sh lg ex' sh' lg' h b hb p hp
    rcases List.mem_cons.mp hb with rfl | hb'
    · cases hfi : env.fromIndex p with
      | error e =>
        rw [loadLoop_cons_error env rest ex sh lg hp hfi] at h
        exact Except.noConfusion h
      | ok q =>
        rw [loadLoop_cons_ok env rest ex sh lg hp hfi] at h
        rcases loadLoop_mono env _ _ _ _ _ _ _ h with ⟨hsh, hlg⟩
        constructor
        · exact ⟨{ path := p, query := q },
            hsh _ (List.mem_append_right _ (List.mem_singleton_self _)), rfl⟩
        · intro hwf
          rw [if_neg (by simp [hwf])] at hlg
          exact hlg _ (List.mem_append_right _ (List.mem_singleton_self _))
    · cases hres : env.resolve base with
      | none =>
        rw [loadLoop_cons_none env rest ex sh lg hres] at h
        exact ih _ _ _ _ _ _ h b hb' p hp
      | some path =>
        cases hfi : env.fromIndex path with
        | error e =>
          rw [loadLoop_cons_error env rest ex sh lg hres hfi] at h
          exact Except.noConfusion h
        | ok q =>
          rw [loadLoop_cons_ok env rest ex sh lg hres hfi] at h
          exact ih _ _ _ _ _ _ h b hb' p hp

/-! ## Claim C6 -/

/-- C6: `search` before loading fails with the not-loaded error (and never
fails once loaded), and `load_index` fails with the no-index-found error
exactly when no candidate path resolves to an existing on-disk index. -/
theorem search_preconditions (env : LoadEnv) (st : RAGState) (q : String) (k : Nat) :
    (st.index_loaded = false → search st q k = .error .notLoaded)
  ∧ (st.index_loaded = true → ∃ l, search st q k = .ok l)
  ∧ (load_index env st = .error .noIndexFound ↔
       ∀ b ∈ st.index_paths, env.resolve b = none) := by
  refine ⟨?_, ?_, ?_, ?_⟩
  · intro h
    rw [search, h]
    simp
  · intro h
    rw [search, h]
    simp only [Bool.true_eq_false, if_false]
    by_cases hall : (st.shard_models.map (fun s => s.query q 2)).flatten = []
    · rw [if_pos hall]; exact ⟨[], rfl⟩
    · rw [if_neg hall]; exact ⟨_, rfl⟩
  · intro h
    cases hl : loadLoop env st.index_paths [] st.shard_models [] with
    | error e =>
      simp only [load_index, hl] at h
      simp only [Except.error.injEq] at h
      exact absurd hl (h ▸ loadLoop_ne_noIndexFound env _ _ _ _)
    | ok triple =>
      rcases triple with ⟨ex, sh, lg⟩
      simp only [load_index, hl] at h
      by_cases hex : ex = []
      · rcases loadLoop_existing env _ _ _ _ _ _ _ hl with ⟨suffix, heq, hiff⟩
        rw [hex] at heq
        exact hiff.mp (by simpa using heq.symm)
      · rw [if_neg hex] at h
        exact Except.noConfusion h
  · intro hall
    simp only [load_index, loadLoop_all_none env _ _ _ _ hall]
    rfl

/-- C6 witness: an unloaded state rejects a query, and an environment in
which the sole candidate path resolves to nothing makes the load fail with
the no-index-found error. -/
theorem search_preconditions_witness :
    search { index_paths := ["part1"], index_loaded := false,
             use_compression := false, shard_models := [] } "how" 5
      = .error .notLoaded
  ∧ load_index
      { resolve := fun _ => none, fromIndex := fun _ => .ok (fun _ _ => []),
        warmupOk := fun _ => true }
      { index_paths := ["part1"], index_loaded := false,
        use_compression := false, shard_models := [] }
      = .error .noIndexFound :=
  ⟨(search_preconditions
      { resolve := fun _ => none, fromIndex := fun _ => .ok (fun _ _ => []),
        warmupOk := fun _ => true }
      { index_paths := ["part1"], index_loaded := false,
        use_compression := false, shard_models := [] } "how" 5).1 rfl,
   (search_preconditions
      { resolve := fun _ => none, fromIndex := fun _ => .ok (fun _ _ => []),
        warmupOk := fun _ => true }
      { index_paths := ["part1"], index_loaded := false,
        use_compression := false, shard_models := [] } "how" 5).2.2.mpr
     (fun _ _ => rfl)⟩

/-! ## Claim C1 -/

/-- C1 amended: on a successful load starting from an empty shard list,
every in-memory shard has a successfully constructed provider handle for a
resolved path; every resolved path contributes a shard even when its warm-up
fails, in which case a warning is logged (the shard is NOT excluded); and a
provider-handle construction failure is not caught: it aborts the whole
load with that provider error. -/
theorem load_index_partial_failure (env : LoadEnv) (st : RAGState)
    (h0 : st.shard_models = []) :
    (∀ st' log, load_index env st = .ok (st', log) →
       (∀ s ∈ st'.shard_models,
          env.fromIndex s.path = .ok s.query ∧
          ∃ b ∈ st.index_paths, env.resolve b = some s.path)
     ∧ (∀ b ∈ st.index_paths, ∀ p, env.resolve b = some p →
          (∃ s ∈ st'.shard_models, s.path = p) ∧
          (env.warmupOk p = false → warmupWarning p ∈ log)))
  ∧ (∀ b p e, st.index_paths = [b] → env.resolve b = some p →
       env.fromIndex p = .error e →
       load_index env st = .error (.providerError p e)) := by
  constructor
  · intro st' log hok
    cases hl : loadLoop env st.index_paths [] st.shard_models [] with
    | error e =>
      simp only [load_index, hl] at hok
      exact Except.noConfusion hok
    | ok triple =>
      rcases triple with ⟨ex, sh, lg⟩
      simp only [load_index, hl] at hok
      by_cases hex : ex = []
      · rw [if_pos hex] at hok
        exact Except.noConfusion hok
      · rw [if_neg hex] at hok
        simp only [Except.ok.injEq, Prod.mk.injEq] at hok
        have hsh : st'.shard_models = sh := by rw [← hok.1]
        have hlg : log = lg := hok.2.symm
        constructor
        · intro s hs
          rw [hsh] at hs
          rw [h0] at hl
          rcases loadLoop_shards env _ _ _ _ _ _ _ hl s hs with hin | hgood
          · exact absurd hin (List.not_mem_nil s)
          · exact hgood
        · intro b hb p hp
          rcases loadLoop_resolved env _ _ _ _ _ _ _ hl b hb p hp with ⟨h1, h2⟩
          rw [hsh, hlg]
          exact ⟨h1, h2⟩
  · intro b p e hpaths hres hfi
    have hstep : loadLoop env [b] [] st.shard_models [] =
        .error (.providerError p e) :=
      loadLoop_cons_error env [] [] st.shard_models [] hres hfi
    simp only [load_index, hpaths, hstep]

/-- Concrete environments for the C1 theorems: `envW` resolves every base
and constructs every handle but fails the warm-up for the shard of base
`"b"`; `envBadConstruction` resolves every base and fails every handle
construction. -/
def envW : LoadEnv :=
  { resolve := fun b => some ("idx/" ++ b)
    fromIndex := fun _ => .ok (fun _ _ => [])
    warmupOk := fun p => p == "idx/a" }

def stW : RAGState :=
  { index_paths := ["a", "b"], index_loaded := false,
    use_compression := false, shard_models := [] }

def envBadConstruction : LoadEnv :=
  { resolve := fun _ => some "p"
    fromIndex := fun _ => .error "boom"
    warmupOk := fun _ => true }

/-- C1 counterexample: a provider-handle construction failure aborts the
whole `load_index` call (it is fatal and the claim's catch-and-continue
behaviour does not happen), and a shard whose warm-up query fails is still
present in the loaded shard list (it is not excluded), with the warning
logged. -/
theorem load_index_failure_counterexample :
    load_index envBadConstruction
      { index_paths := ["a"], index_loaded := false,
        use_compression := false, shard_models := [] }
      = .error (.providerError "p" "boom")
  ∧ ∃ st' log, load_index envW stW = .ok (st', log) ∧
      st'.shard_models.map Shard.path = ["idx/a", "idx/b"] ∧
      log = [warmupWarning "idx/b"] :=
  ⟨rfl, _, _, rfl, rfl, rfl⟩

/-- C1 witness: the amended theorem applied to `envW`/`stW`, specialised to
the resolved path `"idx/b"` whose warm-up fails: its shard is in the loaded
list and its warning is in the log. -/
theorem load_index_partial_failure_witness :
    (∃ s ∈ ({ index_paths := ["a", "b"], index_loaded := true,
              use_compression := false,
              shard_models :=
                [{ path := "idx/a", query := fun _ _ => [] },
                 { path := "idx/b", query := fun _ _ => [] }] } : RAGState).shard_models,
       Shard.path s = "idx/b")
  ∧ warmupWarning "idx/b" ∈ [warmupWarning "idx/b"] := by
  have h := ((load_index_partial_failure envW stW rfl).1
      { index_paths := ["a", "b"], index_loaded := true,
        use_compression := false,
        shard_models :=
          [{ path := "idx/a", query := fun _ _ => [] },
           { path := "idx/b", query := fun _ _ => [] }] }
      [warmupWarning "idx/b"] rfl).2 "b" (by decide) "idx/b" rfl
  exact ⟨h.1, h.2 rfl⟩

/-! ## Claim C8 -/

/-- C8: an empty search result makes `ask` return the fixed
no-relevant-information answer with empty sources and results, without ever
invoking the completion provider. -/
theorem ask_empty_results (env : AskEnv) (st : RAGState) (question : String)
    (k : Nat) (hs : search st question k = .ok []) :
    ask env st question k =
      (.ok { answer := noInfoAnswer, sources := [], search_results := [] },
       [.searchCall question k])
  ∧ Event.ollamaCall ∉ (ask env st question k).2 := by
  have hask : ask env st question k =
      (.ok { answer := noInfoAnswer, sources := [], search_results := [] },
       [.searchCall question k]) := by
    simp [ask, hs]
  refine ⟨hask, ?_⟩
  rw [hask]
  simp

/-- C8 witness: a loaded state whose only shard pool is empty yields the
literal fixed answer and a trace with no completion-provider call. -/
theorem ask_empty_results_witness :
    ask { compress := fun r _ => .ok r, ollama := fun _ _ => "ans" }
      { index_paths := ["p"], index_loaded := true,
        use_compression := false, shard_models := [] } "question" 5 =
      (.ok { answer := noInfoAnswer, sources := [], search_results := [] },
       [.searchCall "question" 5])
  ∧ Event.ollamaCall ∉
      (ask { compress := fun r _ => .ok r, ollama := fun _ _ => "ans" }
        { index_paths := ["p"], index_loaded := true,
          use_compression := false, shard_models := [] } "question" 5).2 :=
  ask_empty_results _ _ "question" 5 rfl

/-! ## Claim C7 -/

/-- C7: when compression turns a non-empty result list into zero results,
`ask` discards the compressed output and re-runs the search once with the
same question and `k`, so the generated answer uses the original results. -/
theorem ask_compression_recovery (env : AskEnv) (st : RAGState)
    (question : String) (k : Nat) (r1 : List SearchHit)
    (hc : st.use_compression = true)
    (hs : search st question k = .ok r1) (hne : r1 ≠ [])
    (hz : env.compress r1 question = .ok []) :
    (ask env st question k).2 =
      [.searchCall question k, .compressCall, .searchCall question k, .ollamaCall]
  ∧ ∃ res, (ask env st question k).1 = .ok res ∧ res.search_results = r1 := by
  have hcond : (([] : List SearchHit).length = 0 ∧ 0 < r1.length) :=
    ⟨rfl, List.length_pos.mpr hne⟩
  have hask : ask env st question k =
      finishAsk env question r1
        [.searchCall question k, .compressCall, .searchCall question k] := by
    simp only [ask, hs, if_neg hne, hc, if_true, hz, if_pos hcond]
  rw [hask, finishAsk]
  exact ⟨rfl, _, rfl, rfl⟩

/-- C7 witness: a one-shard loaded state with an always-empty compressor at
`k = 1`: the trace shows the second search and the answer is built from the
original hit. -/
theorem ask_compression_recovery_witness :
    (ask { compress := fun _ _ => .ok [], ollama := fun _ _ => "a" }
      { index_paths := ["p"], index_loaded := true, use_compression := true,
        shard_models :=
          [{ path := "p",
             query := fun _ _ => [{ chunk_id := "c", text := "t", score := 1,
                                    title := "", source_url := "",
                                    index_path := "p" }] }] } "q" 1).2 =
      [.searchCall "q" 1, .compressCall, .searchCall "q" 1, .ollamaCall]
  ∧ ∃ res,
      (ask { compress := fun _ _ => .ok [], ollama := fun _ _ => "a" }
        { index_paths := ["p"], index_loaded := true, use_compression := true,
          shard_models :=
            [{ path := "p",
               query := fun _ _ => [{ chunk_id := "c", text := "t", score := 1,
                                      title := "", source_url := "",
                                      index_path := "p" }] }] } "q" 1).1 = .ok res ∧
      res.search_results =
        [{ chunk_id := "c", text := "t", score := 1, title := "",
           source_url := "", index_path := "p" }] :=
  ask_compression_recovery _ _ "q" 1 _ rfl rfl (by simp) rfl

/-! ## Lemmas about the chunking loops -/

/-- A pointwise property extends over appending a single element. -/
theorem forall_mem_append_one {α : Type} {P : α → Prop} {l : List α} {x : α}
    (hl : ∀ y ∈ l, P y) (hx : P x) : ∀ y ∈ l ++ [x], P y := by
  intro y hy
  rcases List.mem_append.mp hy with hin | hone
  · exact hl y hin
  · rcases List.mem_singleton.mp hone with rfl
    exact hx

/-- Appending one chunk indexed by the current length keeps the
`chunk_index` column equal to `range`. -/
theorem indexOk_append {acc : List Chunk} {ch : Chunk}
    (h : acc.map Chunk.chunk_index = List.range acc.length)
    (hch : ch.chunk_index = acc.length) :
    (acc ++ [ch]).map Chunk.chunk_index = List.range (acc ++ [ch]).length := by
  rw [List.map_append, h, List.length_append, List.map_singleton, hch,
    List.length_singleton, List.range_succ]

/-- Paragraph-mode helper: every produced chunk meets the size bound and is
an unmodified candidate from some paragraph's split. -/
theorem para_mode_chunks (cfg : SmartChunker) (doc : Document)
    (hrp : cfg.respect_paragraphs = true) :
    ∀ ch ∈ chunk_document cfg doc,
      cfg.min_chunk_size ≤ estimate_tokens ch.text ∧
      ∃ para ∈ split_into_paragraphs doc.text,
        ch.text ∈ split_paragraph cfg para := by
  rw [chunk_document]
  by_cases ht : doc.text = ""
  · rw [if_pos ht]
    intro ch hch
    exact absurd hch (List.not_mem_nil ch)
  · rw [if_neg ht, hrp, if_pos rfl]
    apply foldl_inv (fun acc : List Chunk => ∀ ch ∈ acc,
      cfg.min_chunk_size ≤ estimate_tokens ch.text ∧
      ∃ para ∈ split_into_paragraphs doc.text, ch.text ∈ split_paragraph cfg para)
    · intro acc pi hpi hacc
      rw [paraStep]
      apply foldl_inv (fun acc : List Chunk => ∀ ch ∈ acc,
        cfg.min_chunk_size ≤ estimate_tokens ch.text ∧
        ∃ para ∈ split_into_paragraphs doc.text, ch.text ∈ split_paragraph cfg para)
      · intro acc2 ci hci hacc2
        by_cases hsz : estimate_tokens ci.2 < cfg.min_chunk_size
        · rw [if_pos hsz]; exact hacc2
        · rw [if_neg hsz]
          refine forall_mem_append_one hacc2 ⟨Nat.le_of_not_lt hsz, pi.2, ?_, ?_⟩
          · exact snd_mem_of_mem_enum hpi
          · exact snd_mem_of_mem_enum hci
      · exact hacc
    · intro ch hch
      exact absurd hch (List.not_mem_nil ch)

/-- Flat-mode helper: every produced chunk meets the size bound and is an
unmodified candidate from the single split of the whole text. -/
theorem flat_mode_chunks (cfg : SmartChunker) (doc : Document)
    (hrp : cfg.respect_paragraphs = false) :
    ∀ ch ∈ chunk_document cfg doc,
      cfg.min_chunk_size ≤ estimate_tokens ch.text ∧
      ch.text ∈ split_paragraph cfg doc.text := by
  rw [chunk_document]
  by_cases ht : doc.text = ""
  · rw [if_pos ht]
    intro ch hch
    exact absurd hch (List.not_mem_nil ch)
  · rw [if_neg ht, hrp]
    simp only [Bool.false_eq_true, if_false]
    apply foldl_inv (fun acc : List Chunk => ∀ ch ∈ acc,
      cfg.min_chunk_size ≤ estimate_tokens ch.text ∧
      ch.text ∈ split_paragraph cfg doc.text)
    · intro acc ci hci hacc
      rw [flatStep]
      by_cases hsz : estimate_tokens ci.2 < cfg.min_chunk_size
      · rw [if_pos hsz]; exact hacc
      · rw [if_neg hsz]
        exact forall_mem_append_one hacc
          ⟨Nat.le_of_not_lt hsz, snd_mem_of_mem_enum hci⟩
    · intro ch hch
      exact absurd hch (List.not_mem_nil ch)

/-! ## Claim C3 -/

/-- C3: in either mode, every chunk `chunk_document` produces has estimated
token size at least `min_chunk_size`, and its text is an unmodified split
candidate — an undersized candidate is dropped, never merged into a
neighbour. -/
theorem chunk_min_size (cfg : SmartChunker) (doc : Document) :
    ∀ ch ∈ chunk_document cfg doc,
      cfg.min_chunk_size ≤ estimate_tokens ch.text ∧
      (cfg.respect_paragraphs = true →
        ∃ para ∈ split_into_paragraphs doc.text,
          ch.text ∈ split_paragraph cfg para) ∧
      (cfg.respect_paragraphs = false →
        ch.text ∈ split_paragraph cfg doc.text) := by
  intro ch hch
  cases hrp : cfg.respect_paragraphs with
  | true =>
    rcases para_mode_chunks cfg doc hrp ch hch with ⟨hsz, hfrom⟩
    exact ⟨hsz, fun _ => hfrom, fun hfalse => absurd hfalse (by simp)⟩
  | false =>
    rcases flat_mode_chunks cfg doc hrp ch hch with ⟨hsz, hfrom⟩
    exact ⟨hsz, fun htrue => absurd htrue (by simp), fun _ => hfrom⟩

/-- C3 witness: a short document with `min_chunk_size` 1 produces one chunk,
and the theorem applies to it. -/
theorem chunk_min_size_witness :
    ({ min_chunk_size := 1 } : SmartChunker).min_chunk_size ≤
      estimate_tokens (Chunk.text
        { text := "abcdefgh", chunk_id := "d_chunk_0_0", source_id := "d",
          source_url := "", title := "", chunk_index := 0,
          metadata := [("paragraph_index", "0"), ("chunk_in_paragraph", "0"),
                       ("total_chunks", "1")] })
  ∧ (({ min_chunk_size := 1 } : SmartChunker).respect_paragraphs = true →
      ∃ para ∈ split_into_paragraphs (Document.text { id := "d", text := "abcdefgh" }),
        Chunk.text
          { text := "abcdefgh", chunk_id := "d_chunk_0_0", source_id := "d",
            source_url := "", title := "", chunk_index := 0,
            metadata := [("paragraph_index", "0"), ("chunk_in_paragraph", "0"),
                         ("total_chunks", "1")] } ∈
          split_paragraph { min_chunk_size := 1 } para)
  ∧ (({ min_chunk_size := 1 } : SmartChunker).respect_paragraphs = false →
      Chunk.text
        { text := "abcdefgh", chunk_id := "d_chunk_0_0", source_id := "d",
          source_url := "", title := "", chunk_index := 0,
          metadata := [("paragraph_index", "0"), ("chunk_in_paragraph", "0"),
                       ("total_chunks", "1")] } ∈
        split_paragraph { min_chunk_size := 1 }
          (Document.text { id := "d", text := "abcdefgh" })) :=
  chunk_min_size { min_chunk_size := 1 } { id := "d", text := "abcdefgh" }
    { text := "abcdefgh", chunk_id := "d_chunk_0_0", source_id := "d",
      source_url := "", title := "", chunk_index := 0,
      metadata := [("paragraph_index", "0"), ("chunk_in_paragraph", "0"),
                   ("total_chunks", "1")] }
    (by decide)

/-! ## Claim C4 -/

/-- C4: in paragraph mode the `chunk_index` column of the output is exactly
`0, 1, 2, …` in output order, no matter how many candidates were dropped. -/
theorem para_mode_contiguous_index (cfg : SmartChunker) (doc : Document)
    (hrp : cfg.respect_paragraphs = true) :
    (chunk_document cfg doc).map Chunk.chunk_index =
      List.range (chunk_document cfg doc).length := by
  rw [chunk_document]
  by_cases ht : doc.text = ""
  · rw [if_pos ht]; rfl
  · rw [if_neg ht, hrp, if_pos rfl]
    apply foldl_inv
      (fun acc : List Chunk => acc.map Chunk.chunk_index = List.range acc.length)
    · intro acc pi _ hacc
      rw [paraStep]
      apply foldl_inv
        (fun acc : List Chunk => acc.map Chunk.chunk_index = List.range acc.length)
      · intro acc2 ci _ hacc2
        by_cases hsz : estimate_tokens ci.2 < cfg.min_chunk_size
        · rw [if_pos hsz]; exact hacc2
        · rw [if_neg hsz]
          exact indexOk_append hacc2 rfl
      · exact hacc
    · rfl

/-- C4 witness: a two-paragraph document with dropping disabled by a zero
minimum produces indices `[0, 1] = range 2`. -/
theorem para_mode_contiguous_index_witness :
    (chunk_document ({ min_chunk_size := 0 } : SmartChunker)
        { id := "d", text := "aaaa\n\nbbbb" }).map Chunk.chunk_index =
      List.range
        (chunk_document ({ min_chunk_size := 0 } : SmartChunker)
          { id := "d", text := "aaaa\n\nbbbb" }).length :=
  para_mode_contiguous_index { min_chunk_size := 0 }
    { id := "d", text := "aaaa\n\nbbbb" } rfl

/-! ## Claim C10 -/

/-- The flat loop is the filter of the enumerated candidates. -/
theorem flatFold (cfg : SmartChunker) (doc : Document) :
    ∀ (l : List (Nat × String)) (acc : List Chunk),
      l.foldl (flatStep cfg doc) acc =
        acc ++ l.filterMap (fun it =>
          if estimate_tokens it.2 < cfg.min_chunk_size then none
          else some (mkFlatChunk doc it.1 it.2)) := by
  intro l
  induction l with
  | nil => intro acc; simp
  | cons it rest ih =>
    intro acc
    by_cases hsz : estimate_tokens it.2 < cfg.min_chunk_size
    · simp only [List.foldl_cons, flatStep, if_pos hsz, List.filterMap_cons, ih]
    · simp only [List.foldl_cons, flatStep, if_neg hsz, List.filterMap_cons, ih,
        List.append_assoc, List.singleton_append]

/-- C10 amended: with paragraph mode off, the surviving chunks are exactly
the enumerated pre-filter candidates of size at least `min_chunk_size`, each
keeping its pre-filter position as `chunk_index` (and in its `chunk_id`), so
the indices skip every dropped position — they fail to be contiguous
exactly when a dropped candidate precedes a kept one, while a trailing drop
leaves them contiguous. -/
theorem flat_mode_indices (cfg : SmartChunker) (doc : Document)
    (hrp : cfg.respect_paragraphs = false) (ht : doc.text ≠ "") :
    (chunk_document cfg doc).map (fun ch => (ch.chunk_index, ch.text)) =
      (split_paragraph cfg doc.text).enum.filterMap (fun it =>
        if estimate_tokens it.2 < cfg.min_chunk_size then none else some it)
  ∧ ∀ ch ∈ chunk_document cfg doc,
      ch.chunk_id = doc.id ++ "_chunk_" ++ toString ch.chunk_index := by
  have hcd : chunk_document cfg doc =
      (split_paragraph cfg doc.text).enum.filterMap (fun it =>
        if estimate_tokens it.2 < cfg.min_chunk_size then none
        else some (mkFlatChunk doc it.1 it.2)) := by
    rw [chunk_document, if_neg ht, hrp]
    simp only [Bool.false_eq_true, if_false]
    rw [flatFold]
    rfl
  constructor
  · rw [hcd, List.map_filterMap]
    congr 1
    funext it
    by_cases hsz : estimate_tokens it.2 < cfg.min_chunk_size
    · simp [hsz]
    · simp [hsz, mkFlatChunk]
  · intro ch hch
    rw [hcd] at hch
    rcases List.mem_filterMap.mp hch with ⟨it, _, hsome⟩
    by_cases hsz : estimate_tokens it.2 < cfg.min_chunk_size
    · rw [if_pos hsz] at hsome
      exact Option.noConfusion hsome
    · rw [if_neg hsz] at hsome
      cases Option.some.inj hsome
      rfl

/-- C10 witness: the characterisation at a concrete flat-mode document in
which the second candidate is dropped. -/
theorem flat_mode_indices_witness :
    (chunk_document
        ({ chunk_size := 3, chunk_overlap := 0, min_chunk_size := 2,
           respect_sentences := false, respect_paragraphs := false } : SmartChunker)
        { id := "x", text := "aaaaaaaaaaaa bbbb" }).map
        (fun ch => (ch.chunk_index, ch.text)) =
      (split_paragraph
          { chunk_size := 3, chunk_overlap := 0, min_chunk_size := 2,
            respect_sentences := false, respect_paragraphs := false }
          (Document.text { id := "x", text := "aaaaaaaaaaaa bbbb" })).enum.filterMap
        (fun it =>
          if estimate_tokens it.2 <
              ({ chunk_size := 3, chunk_overlap := 0, min_chunk_size := 2,
                 respect_sentences := false,
                 respect_paragraphs := false } : SmartChunker).min_chunk_size
          then none else some it)
  ∧ ∀ ch ∈ chunk_document
        ({ chunk_size := 3, chunk_overlap := 0, min_chunk_size := 2,
           respect_sentences := false, respect_paragraphs := false } : SmartChunker)
        { id := "x", text := "aaaaaaaaaaaa bbbb" },
      ch.chunk_id = "x" ++ "_chunk_" ++ toString ch.chunk_index :=
  flat_mode_indices
    { chunk_size := 3, chunk_overlap := 0, min_chunk_size := 2,
      respect_sentences := false, respect_paragraphs := false }
    { id := "x", text := "aaaaaaaaaaaa bbbb" } rfl (by decide)

/-- C10 counterexample: with paragraph mode off, a document whose second
(trailing) candidate is dropped still has a contiguous `chunk_index`
column (`[0] = range 1`), so dropping does not always break contiguity. -/
theorem flat_trailing_drop_counterexample :
    (split_paragraph
        ({ chunk_size := 3, chunk_overlap := 0, min_chunk_size := 2,
           respect_sentences := false, respect_paragraphs := false } : SmartChunker)
        "aaaaaaaaaaaa bbbb").length = 2
  ∧ estimate_tokens
      ((split_paragraph
          ({ chunk_size := 3, chunk_overlap := 0, min_chunk_size := 2,
             respect_sentences := false, respect_paragraphs := false } : SmartChunker)
          "aaaaaaaaaaaa bbbb").getD 1 "") < 2
  ∧ (chunk_document
        ({ chunk_size := 3, chunk_overlap := 0, min_chunk_size := 2,
           respect_sentences := false, respect_paragraphs := false } : SmartChunker)
        { id := "x", text := "aaaaaaaaaaaa bbbb" }).map Chunk.chunk_index =
      List.range
        (chunk_document
            ({ chunk_size := 3, chunk_overlap := 0, min_chunk_size := 2,
               respect_sentences := false, respect_paragraphs := false } : SmartChunker)
            { id := "x", text := "aaaaaaaaaaaa bbbb" }).length := by
  decide

/-! ## Claim C9 -/

/-- C9 counterexample: with the chunker's defaults — a large `chunk_size` of
900 and the default `min_chunk_size` of 150 — the example document produces
no chunks at all: both paragraphs (estimated 11 and 2 tokens) are dropped. -/
theorem example_document_default_empty :
    chunk_document ({} : SmartChunker)
      { id := "d1",
        text := "Para one sentence. Para one second sentence.\n\nPara two." } = [] := by
  decide

/-- C9 amended: with a large `chunk_size` and `min_chunk_size` lowered to 0
(the example's paragraphs estimate to 11 and 2 tokens, under the default
minimum of 150), the example document yields exactly two chunks, one per
paragraph, with the expected ids. -/
theorem example_document_two_chunks :
    (chunk_document ({ min_chunk_size := 0 } : SmartChunker)
        { id := "d1",
          text := "Para one sentence. Para one second sentence.\n\nPara two." }).map
        (fun ch => (ch.chunk_id, ch.text)) =
      [("d1_chunk_0_0", "Para one sentence. Para one second sentence."),
       ("d1_chunk_1_0", "Para two.")] := by
  decide

/-! ## Claim C5 -/

/-- Seeding relation between consecutive chunks of the packing loop: the
next chunk is the last `slice` units of the previous one (all of them when
it has fewer than `slice`), then the unit that triggered the flush, then
whatever was appended afterwards. -/
def seedRel (P : String → Prop) (slice : Nat) (a b : List String) : Prop :=
  ∃ w, P w ∧ ∃ rest, b = takeLast slice a ++ w :: rest

/-- Loop invariant for the packing loop with positive overlap: flushed
chunks are chain-linked by the seeding relation, a non-empty chunk list
implies a non-empty buffer, and the buffer itself is seeded from the last
flushed chunk. -/
def SeedInv (P : String → Prop) (slice : Nat) (st : SplitState) : Prop :=
  List.Chain' (seedRel P slice) st.chunks
  ∧ (st.chunks ≠ [] → st.cur ≠ [])
  ∧ ∀ c ∈ st.chunks.getLast?, seedRel P slice c st.cur

/-- The source's guarded overlap slice (`xs[-n:] if len(xs) >= n else xs`)
is `takeLast` unconditionally. -/
theorem slice_eq_takeLast (slice : Nat) (l : List String) :
    (if slice ≤ l.length then takeLast slice l else l) = takeLast slice l := by
  by_cases hs : slice ≤ l.length
  · rw [if_pos hs]
  · rw [if_neg hs, takeLast, Nat.sub_eq_zero_of_le (le_of_lt (lt_of_not_le hs)),
      List.drop_zero]

/-- One step of the packing loop preserves the seeding invariant when the
overlap is positive. -/
theorem splitStep_seedInv (chunkSize overlap slice : Nat) (usize : String → Nat)
    (hov : 0 < overlap) {P : String → Prop} (st : SplitState) (u : String)
    (hu : P u) (hinv : SeedInv P slice st) :
    SeedInv P slice (splitStep chunkSize overlap slice usize st u) := by
  rcases hinv with ⟨hchain, hne, hlast⟩
  rw [splitStep]
  by_cases hflush : chunkSize < st.curSize + usize u ∧ st.cur ≠ []
  · rw [if_pos hflush, if_pos hov, slice_eq_takeLast]
    refine ⟨?_, ?_, ?_⟩
    · rw [List.chain'_append]
      refine ⟨hchain, List.chain'_singleton _, ?_⟩
      intro c hc y hy
      rw [List.head?_cons, Option.mem_def, Option.some.injEq] at hy
      rw [← hy]
      exact hlast c hc
    · intro _
      simp
    · intro c hc
      rw [List.getLast?_concat, Option.mem_def, Option.some.injEq] at hc
      rw [← hc]
      exact ⟨u, hu, [], rfl⟩
  · rw [if_neg hflush]
    refine ⟨hchain, fun _ => by simp, ?_⟩
    intro c hc
    rcases hlast c hc with ⟨w, hw, rest, hrest⟩
    refine ⟨w, hw, rest ++ [u], ?_⟩
    rw [hrest, List.append_assoc]
    rfl

/-- With positive overlap, consecutive chunks of the packing loop are linked
by the seeding relation: each begins with the last `slice` units of its
predecessor followed by the unit from the input that triggered the flush. -/
theorem splitUnits_chain' (chunkSize overlap slice : Nat) (usize : String → Nat)
    (hov : 0 < overlap) (units : List String) :
    List.Chain' (seedRel (fun w => w ∈ units) slice)
      (splitUnits chunkSize overlap slice usize units) := by
  have hinv : SeedInv (fun w => w ∈ units) slice
      (units.foldl (splitStep chunkSize overlap slice usize) ⟨[], [], 0⟩) := by
    apply foldl_inv (SeedInv (fun w => w ∈ units) slice)
    · intro st u hu hst
      exact splitStep_seedInv chunkSize overlap slice usize hov st u hu hst
    · refine ⟨List.chain'_nil, fun h => absurd rfl h, ?_⟩
      intro c hc
      simp at hc
  rw [splitUnits]
  rcases hinv with ⟨hchain, _, hlast⟩
  by_cases hcur :
      (units.foldl (splitStep chunkSize overlap slice usize) ⟨[], [], 0⟩).cur ≠ []
  · rw [if_pos hcur, List.chain'_append]
    refine ⟨hchain, List.chain'_singleton _, ?_⟩
    intro c hc y hy
    rw [List.head?_cons, Option.mem_def, Option.some.injEq] at hy
    rw [← hy]
    exact hlast c hc
  · rw [if_neg hcur]
    exact hchain

/-- C5: for an oversized paragraph with positive `chunk_overlap`, the
sentence branch of `_split_paragraph` packs `split_into_sentences` with a
seeding slice of 2 regardless of `chunk_overlap`'s value, while the word
branch packs `splitWhitespace` with a seeding slice of `chunk_overlap`; in
both branches each chunk after the first begins with the last `slice` units
(at most 2 sentences, or the last `min(chunk_overlap, length)` words) of
the previous chunk, followed by the unit that triggered the flush. -/
theorem split_paragraph_overlap (cfg : SmartChunker) (p : String)
    (hbig : cfg.chunk_size < estimate_tokens p) (hov : 0 < cfg.chunk_overlap) :
    (cfg.respect_sentences = true →
       split_paragraph cfg p =
         (splitUnits cfg.chunk_size cfg.chunk_overlap 2 estimate_tokens
           (split_into_sentences p)).map joinSpace
     ∧ List.Chain' (seedRel (fun w => w ∈ split_into_sentences p) 2)
         (splitUnits cfg.chunk_size cfg.chunk_overlap 2 estimate_tokens
           (split_into_sentences p)))
  ∧ (cfg.respect_sentences = false →
       split_paragraph cfg p =
         (splitUnits cfg.chunk_size cfg.chunk_overlap cfg.chunk_overlap wordSize
           (splitWhitespace p)).map joinSpace
     ∧ List.Chain' (seedRel (fun w => w ∈ splitWhitespace p) cfg.chunk_overlap)
         (splitUnits cfg.chunk_size cfg.chunk_overlap cfg.chunk_overlap wordSize
           (splitWhitespace p))) := by
  have hnle : ¬ estimate_tokens p ≤ cfg.chunk_size := not_le.mpr hbig
  constructor
  · intro hrs
    refine ⟨?_, splitUnits_chain' _ _ _ _ hov _⟩
    rw [split_paragraph, if_neg hnle, hrs, if_pos rfl]
  · intro hrs
    refine ⟨?_, splitUnits_chain' _ _ _ _ hov _⟩
    rw [split_paragraph, if_neg hnle, hrs]
    simp only [Bool.false_eq_true, if_false]

/-- C5 witness: a concrete three-sentence oversized paragraph with overlap 3
(the sentence-mode slice stays 2), and the word-mode instantiation on its
words. -/
theorem split_paragraph_overlap_witness :
    (({ chunk_size := 5, chunk_overlap := 3,
        min_chunk_size := 0 } : SmartChunker).respect_sentences = true →
       split_paragraph { chunk_size := 5, chunk_overlap := 3, min_chunk_size := 0 }
           "Alpha beta gamma. Delta epsilon zeta. Eta theta iota." =
         (splitUnits 5 3 2 estimate_tokens
           (split_into_sentences
             "Alpha beta gamma. Delta epsilon zeta. Eta theta iota.")).map joinSpace
     ∧ List.Chain'
         (seedRel
           (fun w => w ∈ split_into_sentences
             "Alpha beta gamma. Delta epsilon zeta. Eta theta iota.") 2)
         (splitUnits 5 3 2 estimate_tokens
           (split_into_sentences
             "Alpha beta gamma. Delta epsilon zeta. Eta theta iota.")))
  ∧ (({ chunk_size := 5, chunk_overlap := 3,
        min_chunk_size := 0 } : SmartChunker).respect_sentences = false →
       split_paragraph { chunk_size := 5, chunk_overlap := 3, min_chunk_size := 0 }
           "Alpha beta gamma. Delta epsilon zeta. Eta theta iota." =
         (splitUnits 5 3 3 wordSize
           (splitWhitespace
             "Alpha beta gamma. Delta epsilon zeta. Eta theta iota.")).map joinSpace
     ∧ List.Chain'
         (seedRel
           (fun w => w ∈ splitWhitespace
             "Alpha beta gamma. Delta epsilon zeta. Eta theta iota.") 3)
         (splitUnits 5 3 3 wordSize
           (splitWhitespace
             "Alpha beta gamma. Delta epsilon zeta. Eta theta iota."))) :=
  split_paragraph_overlap
    { chunk_size := 5, chunk_overlap := 3, min_chunk_size := 0 }
    "Alpha beta gamma. Delta epsilon zeta. Eta theta iota."
    (by decide) (by decide)

end SysAdminRAG
